import Mathlib

/-!
Verification of the `shiplift` image module (`src/image.rs`) against its
natural-language specification.

The development shallowly embeds the Rust code: JSON values are an inductive
type with objects as association lists (first occurrence of a key wins, the
inputs of interest have distinct keys), serde-derived deserialization of the
untagged `ImageBuildChunk` enum is a function trying the variants in
declaration order, strings handled as bytes are `List Nat` with a
well-formedness bound `< 256`, and fallible or panicking Rust code returns
`Option` / `Except`.
-/

/-- JSON values; objects are association lists of key/value pairs. -/
inductive Json where
  | null : Json
  | bool (b : Bool) : Json
  | num (n : Nat) : Json
  | str (s : String) : Json
  | arr (elems : List Json) : Json
  | obj (fields : List (String × Json)) : Json

/-- Lookup of a key in an association list, first occurrence wins. -/
def alistLookup {α : Type} : List (String × α) → String → Option α
  | [], _ => none
  | (k, v) :: rest, key => if k = key then some v else alistLookup rest key

/-- Field access on a JSON object body. -/
def getField (o : List (String × Json)) (k : String) : Option Json :=
  alistLookup o k

/-- Embeds `ErrorDetail` from `src/image.rs`. -/
structure ErrorDetail where
  message : String
deriving DecidableEq

/-- Embeds `Aux` from `src/image.rs`. -/
structure Aux where
  id : String
deriving DecidableEq

/-- Embeds `ProgressDetail` from `src/image.rs` (both fields `Option<u64>`). -/
structure ProgressDetail where
  current : Option Nat
  total : Option Nat
deriving DecidableEq

/-- Embeds the untagged enum `ImageBuildChunk` from `src/image.rs`. -/
inductive ImageBuildChunk where
  | Update (stream : String)
  | Error (error : Option String) (error_detail : ErrorDetail)
  | Digest (aux : Aux)
  | PullStatus (status : String) (id : Option String) (progress : Option String)
      (progress_detail : Option ProgressDetail)
deriving DecidableEq

/-- Serde deserialization of a `String` struct field: requires a JSON string. -/
def decodeStrField : Option Json → Option String
  | some (.str s) => some s
  | _ => none

/-- Serde deserialization of an `Option<String>` struct field: a missing field
or JSON null gives `none`, a JSON string gives `some`, anything else fails. -/
def decodeOptStrField : Option Json → Option (Option String)
  | none => some none
  | some .null => some none
  | some (.str s) => some (some s)
  | some _ => none

/-- Serde deserialization of an `Option<u64>` struct field. -/
def decodeOptNatField : Option Json → Option (Option Nat)
  | none => some none
  | some .null => some none
  | some (.num n) => some (some n)
  | some _ => none

/-- Attempt of the `Update { stream }` variant (unknown fields ignored). -/
def decodeUpdate : Json → Option ImageBuildChunk
  | .obj o =>
    match decodeStrField (getField o "stream") with
    | some s => some (.Update s)
    | none => none
  | _ => none

/-- Serde deserialization of the `ErrorDetail { message }` struct. -/
def decodeErrorDetail : Json → Option ErrorDetail
  | .obj o =>
    match decodeStrField (getField o "message") with
    | some m => some ⟨m⟩
    | none => none
  | _ => none

/-- Attempt of the `Error { error, error_detail }` variant: `error` is an
`Option<String>` and may be absent, `errorDetail` is required. -/
def decodeError : Json → Option ImageBuildChunk
  | .obj o =>
    match decodeOptStrField (getField o "error"), getField o "errorDetail" with
    | some e, some dj =>
      match decodeErrorDetail dj with
      | some d => some (.Error e d)
      | none => none
    | _, _ => none
  | _ => none

/-- Serde deserialization of the `Aux { id }` struct (field renamed `ID`). -/
def decodeAux : Json → Option Aux
  | .obj o =>
    match decodeStrField (getField o "ID") with
    | some i => some ⟨i⟩
    | none => none
  | _ => none

/-- Attempt of the `Digest { aux }` variant. -/
def decodeDigest : Json → Option ImageBuildChunk
  | .obj o =>
    match getField o "aux" with
    | some aj =>
      match decodeAux aj with
      | some a => some (.Digest a)
      | none => none
    | none => none
  | _ => none

/-- Serde deserialization of the `ProgressDetail` struct. -/
def decodeProgressDetail : Json → Option ProgressDetail
  | .obj o =>
    match decodeOptNatField (getField o "current"),
          decodeOptNatField (getField o "total") with
    | some c, some t => some ⟨c, t⟩
    | _, _ => none
  | _ => none

/-- Serde deserialization of an `Option<ProgressDetail>` struct field. -/
def decodeOptProgressDetail : Option Json → Option (Option ProgressDetail)
  | none => some none
  | some .null => some none
  | some j =>
    match decodeProgressDetail j with
    | some d => some (some d)
    | none => none

/-- Attempt of the `PullStatus { status, id, progress, progress_detail }`
variant: `status` required, the rest optional. -/
def decodePullStatus : Json → Option ImageBuildChunk
  | .obj o =>
    match decodeStrField (getField o "status") with
    | some st =>
      match decodeOptStrField (getField o "id"),
            decodeOptStrField (getField o "progress"),
            decodeOptProgressDetail (getField o "progressDetail") with
      | some i, some p, some pd => some (.PullStatus st i p pd)
      | _, _, _ => none
    | none => none
  | _ => none

/-- Serde `#[serde(untagged)]` deserialization of `ImageBuildChunk`: the
variants are attempted in declaration order (Update, Error, Digest,
PullStatus) and the first success wins; if all fail, no value is produced. -/
def ImageBuildChunk.decode (j : Json) : Option ImageBuildChunk :=
  match decodeUpdate j with
  | some c => some c
  | none =>
    match decodeError j with
    | some c => some c
    | none =>
      match decodeDigest j with
      | some c => some c
      | none => decodePullStatus j

/-- Embeds `ImageBuildChunk::image_layer_bytes` from `src/image.rs`. -/
def ImageBuildChunk.image_layer_bytes : ImageBuildChunk → Option (String × Nat)
  | .PullStatus _ (some i) _ (some ⟨_, some t⟩) => some (i, t)
  | _ => none

/-- Transcript of 5 JSON pull-status events for the `busybox:latest` pull
scenario: events 2 and 3 share the id `abc` and carry increasing
`progressDetail.total` values (100, then 200). -/
def pullTranscript : List Json :=
  [ .obj [("status", .str "Pulling from library/busybox")],
    .obj [("status", .str "Downloading"), ("id", .str "abc"),
          ("progressDetail", .obj [("current", .num 10), ("total", .num 100)])],
    .obj [("status", .str "Downloading"), ("id", .str "abc"),
          ("progressDetail", .obj [("current", .num 50), ("total", .num 200)])],
    .obj [("status", .str "Downloading"), ("id", .str "def"),
          ("progressDetail", .obj [("current", .num 5), ("total", .num 50)])],
    .obj [("status", .str "Status: Downloaded newer image for busybox:latest")] ]

/-- One step of the layer-accumulation loop of `examples/imagepull_layers.rs`:
insert the `(layer_id, layer_bytes)` pair only when the id is new, so the
first total seen per unique id is kept. -/
def layersStep (m : List (String × Nat)) (c : ImageBuildChunk) :
    List (String × Nat) :=
  match c.image_layer_bytes with
  | some p =>
    match alistLookup m p.1 with
    | some _ => m
    | none => m ++ [p]
  | none => m

/-- The layer map computed by `examples/imagepull_layers.rs` over a decoded
pull stream. -/
def layersOf (cs : List ImageBuildChunk) : List (String × Nat) :=
  cs.foldl layersStep []

/-- Shape of a JSON value acceptable for an `Option<String>` field slot. -/
def optStrShape (v : Option Json) : Prop :=
  v = none ∨ v = some .null ∨ ∃ s, v = some (.str s)

/-- Shape of a JSON value acceptable for an `Option<u64>` field slot. -/
def optNatShape (v : Option Json) : Prop :=
  v = none ∨ v = some .null ∨ ∃ n, v = some (.num n)

/-- Shape of a JSON value encoding a `ProgressDetail` object. -/
def detailShape (j : Json) : Prop :=
  ∃ o, j = .obj o ∧ optNatShape (getField o "current") ∧
    optNatShape (getField o "total")

/-- Shape of a JSON value acceptable for an `Option<ProgressDetail>` slot. -/
def optDetailShape (v : Option Json) : Prop :=
  v = none ∨ v = some .null ∨ ∃ j, v = some j ∧ detailShape j

/-- The plain-message shape: an object with a string `stream` member. -/
def matchesUpdate (j : Json) : Prop :=
  ∃ o s, j = .obj o ∧ getField o "stream" = some (.str s)

/-- The error shape: an object whose `error` slot fits `Option<String>` and
whose required `errorDetail` member is an object with a string `message`. -/
def matchesError (j : Json) : Prop :=
  ∃ o, j = .obj o ∧ optStrShape (getField o "error") ∧
    ∃ dj od m, getField o "errorDetail" = some dj ∧ dj = .obj od ∧
      getField od "message" = some (.str m)

/-- The digest/aux shape: an object whose `aux` member is an object with a
string `ID`. -/
def matchesDigest (j : Json) : Prop :=
  ∃ o aj ao i, j = .obj o ∧ getField o "aux" = some aj ∧ aj = .obj ao ∧
    getField ao "ID" = some (.str i)

/-- The pull-status shape: an object with a string `status` and optional
`id`, `progress` and `progressDetail` members of the right shapes. -/
def matchesPull (j : Json) : Prop :=
  ∃ o st, j = .obj o ∧ getField o "status" = some (.str st) ∧
    optStrShape (getField o "id") ∧ optStrShape (getField o "progress") ∧
    optDetailShape (getField o "progressDetail")

/-- Padding character of base64 output, the byte of the equals sign. -/
def padByte : Nat := 61

/-- The `base64::URL_SAFE` alphabet of the `base64` crate: `A`-`Z`, `a`-`z`,
`0`-`9`, `-`, `_`. -/
def b64Char (n : Nat) : Nat :=
  if n < 26 then 65 + n
  else if n < 52 then 97 + (n - 26)
  else if n < 62 then 48 + (n - 52)
  else if n = 62 then 45
  else 95

/-- Inverse alphabet lookup for base64 decoding. -/
def b64CharDec (c : Nat) : Option Nat :=
  if 65 ≤ c ∧ c ≤ 90 then some (c - 65)
  else if 97 ≤ c ∧ c ≤ 122 then some (26 + (c - 97))
  else if 48 ≤ c ∧ c ≤ 57 then some (52 + (c - 48))
  else if c = 45 then some 62
  else if c = 95 then some 63
  else none

/-- Base64 encoding (URL-safe alphabet, with padding) of a byte list, as
performed by `base64::encode_config(_, base64::URL_SAFE)`. -/
def b64Encode : List Nat → List Nat
  | [] => []
  | [a] => [b64Char (a / 4), b64Char (a % 4 * 16), padByte, padByte]
  | [a, b] =>
    [b64Char (a / 4), b64Char (a % 4 * 16 + b / 16), b64Char (b % 16 * 4), padByte]
  | a :: b :: c :: rest =>
    b64Char (a / 4) :: b64Char (a % 4 * 16 + b / 16) ::
      b64Char (b % 16 * 4 + c / 64) :: b64Char (c % 64) :: b64Encode rest

/-- Base64 decoding of a padded base64 text back to its byte list. -/
def b64Decode : List Nat → Option (List Nat)
  | [] => some []
  | a :: b :: c :: d :: rest =>
    match b64CharDec a, b64CharDec b with
    | some s1, some s2 =>
      if c = padByte then some [s1 * 4 + s2 / 16]
      else
        match b64CharDec c with
        | some s3 =>
          if d = padByte then some [s1 * 4 + s2 / 16, s2 % 16 * 16 + s3 / 4]
          else
            match b64CharDec d with
            | some s4 =>
              (b64Decode rest).map
                (fun bs =>
                  (s1 * 4 + s2 / 16) :: (s2 % 16 * 16 + s3 / 4) ::
                    (s3 % 4 * 64 + s4) :: bs)
            | none => none
        | none => none
    | _, _ => none
  | _ => none

/-- Lowercase hexadecimal digit byte, as used by the serde_json escaper. -/
def hexDigit (n : Nat) : Nat := if n < 10 then 48 + n else 87 + n

/-- The serde_json escaping of one byte inside a JSON string: quote and
backslash get a backslash escape, the control bytes BS, TAB, LF, FF, CR get
their short escapes, other control bytes get `\u00XX`, everything else is
emitted unchanged. -/
def escByte (b : Nat) : List Nat :=
  if b = 34 then [92, 34]
  else if b = 92 then [92, 92]
  else if b = 8 then [92, 98]
  else if b = 9 then [92, 116]
  else if b = 10 then [92, 110]
  else if b = 12 then [92, 102]
  else if b = 13 then [92, 114]
  else if b < 32 then [92, 117, 48, 48, hexDigit (b / 16), hexDigit (b % 16)]
  else [b]

/-- ASCII bytes of a Lean string literal. -/
def s2b (s : String) : List Nat := s.data.map Char.toNat

/-- JSON string literal bytes for a byte-string value: quote, escaped
content, quote. -/
def quoteBytes (s : List Nat) : List Nat :=
  34 :: ((s.map escByte).flatten ++ [34])

/-- Embeds the untagged enum `RegistryAuth` from `src/image.rs`; string
fields are byte lists. -/
inductive RegistryAuth where
  | Password (username password : List Nat) (email : Option (List Nat))
      (server_address : Option (List Nat))
  | Token (identity_token : List Nat)

/-- The serde_json serialization of a `RegistryAuth` value: serde emits the
fields of the matching variant in declaration order, renames
`server_address` to `serveraddress` and `identity_token` to `identitytoken`,
and skips `email` / `serveraddress` when absent. -/
def authJson : RegistryAuth → List Nat
  | .Password u p e s =>
    s2b "\x7b\"username\":" ++ quoteBytes u ++ s2b ",\"password\":" ++
      quoteBytes p ++
      (match e with
       | none => []
       | some em => s2b ",\"email\":" ++ quoteBytes em) ++
      (match s with
       | none => []
       | some sa => s2b ",\"serveraddress\":" ++ quoteBytes sa) ++
      s2b "\x7d"
  | .Token t => s2b "\x7b\"identitytoken\":" ++ quoteBytes t ++ s2b "\x7d"

/-- Embeds `RegistryAuth::serialize` from `src/image.rs`: JSON serialization
followed by URL-safe base64 encoding. -/
def RegistryAuth.serialize (a : RegistryAuth) : List Nat :=
  b64Encode (authJson a)

/-- A byte list is well formed when every element is an actual byte. -/
def wfBytes (l : List Nat) : Prop := ∀ b ∈ l, b < 256

instance (l : List Nat) : Decidable (wfBytes l) :=
  List.decidableBAll (fun b => b < 256) l

/-- Well-formedness of a `RegistryAuth` value: all fields are byte lists. -/
def wfAuth : RegistryAuth → Prop
  | .Password u p e s =>
    wfBytes u ∧ wfBytes p ∧ (∀ em, e = some em → wfBytes em) ∧
      (∀ sa, s = some sa → wfBytes sa)
  | .Token t => wfBytes t

/-- Error cases of `shiplift::Error` reached by the image module code under
study. -/
inductive DockerError where
  | IoError (msg : String)
  | InvalidResponse (line : String)
deriving DecidableEq

/-- Outbound HTTP request body: `Body::from(Vec<u8>)` is a fully materialized
buffer, `Body::wrap_stream` hands the transport an incremental chunk
stream. -/
inductive Body where
  | full (bytes : List Nat)
  | wrapStream (chunks : List (List Nat))
deriving DecidableEq

/-- Embeds `BuildOptions` from `src/image.rs`. -/
structure BuildOptions where
  path : String
  params : List (String × String)
  skip_gzip : Bool

/-- Embeds `BuildOptionsBuilder` from `src/image.rs`. -/
structure BuildOptionsBuilder where
  path : String
  build_params : List (String × String)
  skip_gzip : Bool

/-- Embeds `BuildOptionsBuilder::new`: keeps the path, defaults the rest. -/
def BuildOptionsBuilder.new (path : String) : BuildOptionsBuilder :=
  ⟨path, [], false⟩

/-- Embeds `BuildOptions::builder`. -/
def BuildOptions.builder (path : String) : BuildOptionsBuilder :=
  BuildOptionsBuilder.new path

/-- Embeds `BuildOptionsBuilder::set_skip_gzip`. -/
def BuildOptionsBuilder.set_skip_gzip (b : BuildOptionsBuilder)
    (skip_gzip : Bool) : BuildOptionsBuilder :=
  { b with skip_gzip := skip_gzip }

/-- Embeds `BuildOptionsBuilder::build`. -/
def BuildOptionsBuilder.build (b : BuildOptionsBuilder) : BuildOptions :=
  ⟨b.path, b.build_params, b.skip_gzip⟩

/-- Embeds `TryFutureExt::try_flatten_stream`: an `Ok` future flattens to the
items of the inner stream, an `Err` future becomes a stream whose only item is
that error. -/
def tryFlattenStream {α : Type} :
    Except DockerError (List (Except DockerError α)) →
      List (Except DockerError α)
  | .error e => [.error e]
  | .ok items => items

/-- Record of one `Images::build` invocation: the arguments handed to
`tarball::dir`, the request body posted to the daemon (when reached), and
the items of the returned stream. -/
structure BuildCall where
  tarArgs : String × Bool
  request : Option Body
  stream : List (Except DockerError ImageBuildChunk)

/-- Embeds `Images::build` from `src/image.rs`. `tarDir` stands for
`tarball::dir` writing the archive into the local `bytes` buffer (its result
may be an io error), `daemon` stands for `Docker::stream_post_into`. The tar
archive is built eagerly into a `Vec`; on tar failure the error is bubbled up
inside the stream by `try_flatten_stream` and no request is issued; on
success the whole buffer becomes the request body via `Body::from`. -/
def Images.build (opts : BuildOptions)
    (tarDir : String → Bool → Except String (List Nat))
    (daemon : Body → List (Except DockerError ImageBuildChunk)) : BuildCall :=
  match tarDir opts.path opts.skip_gzip with
  | .error e =>
    ⟨(opts.path, opts.skip_gzip), none, tryFlattenStream (.error (.IoError e))⟩
  | .ok bytes =>
    ⟨(opts.path, opts.skip_gzip), some (.full bytes),
      tryFlattenStream (.ok (daemon (.full bytes)))⟩

/-- Record of one posting call: the body handed to the transport and the
resulting stream items. -/
structure PostCall where
  request : Body
  stream : List (Except DockerError ImageBuildChunk)

/-- Embeds `Images::import` from `src/image.rs` (named `importImage` because
`import` is reserved): the tarball reader is drained to its end into a `Vec`
(`read_to_end`), and the whole buffer becomes the request body. -/
def Images.importImage (tarball : List Nat)
    (daemon : Body → List (Except DockerError ImageBuildChunk)) : PostCall :=
  ⟨.full tarball, tryFlattenStream (.ok (daemon (.full tarball)))⟩

/-- Embeds `Images::build_from_raw_parts` from `src/image.rs`: the
build-context chunk iterator supplied by the caller is wrapped as a streaming body. -/
def Images.build_from_raw_parts (build_context : List (List Nat))
    (daemon : Body → List (Except DockerError ImageBuildChunk)) : PostCall :=
  ⟨.wrapStream build_context, tryFlattenStream (.ok (daemon (.wrapStream build_context)))⟩

/-- Char-list version of `str::starts_with`. -/
def listStartsWith : List Char → List Char → Bool
  | _, [] => true
  | [], _ :: _ => false
  | a :: as, b :: bs => a == b && listStartsWith as bs

/-- Char-list version of `str::contains` for a substring needle. -/
def listContainsSub : List Char → List Char → Bool
  | [], needle => needle.isEmpty
  | h :: t, needle => listStartsWith (h :: t) needle || listContainsSub t needle

/-- Embeds the Rust `str::contains` substring test. -/
def strContains (hay needle : String) : Bool :=
  listContainsSub hay.data needle.data

/-- The Rust `str::split("\r\n")` operation on a char list: greedy leftmost
non-overlapping separator matches, always at least one piece. -/
def splitCrlf : List Char → List (List Char)
  | [] => [[]]
  | '\r' :: '\n' :: rest => [] :: splitCrlf rest
  | c :: rest =>
    match splitCrlf rest with
    | [] => [[c]]
    | h :: t => (c :: h) :: t

/-- Embeds the response handling of `Images::push` from `src/image.rs`: the
fully-buffered response body is split on `\r\n`, the first line containing
the substring `errorDetail` yields `Err(InvalidResponse(line))`, otherwise
the body is discarded and `Ok(())` is returned. No JSON decoding of the
progress stream is performed. -/
def Images.push (body : String) : Except DockerError Unit :=
  match (splitCrlf body.data).find?
      (fun l => listContainsSub l "errorDetail".data) with
  | some l => .error (.InvalidResponse (String.mk l))
  | none => .ok ()

/-- The Rust split on the equals sign character, on a char list: always at
least one piece. -/
def splitEq : List Char → List (List Char)
  | [] => [[]]
  | c :: rest =>
    if c = '=' then [] :: splitEq rest
    else
      match splitEq rest with
      | [] => [[c]]
      | h :: t => (c :: h) :: t

/-- Association-list insert with overwrite, the `HashMap::insert`
semantics. -/
def alistInsert {α : Type} : List (String × α) → String → α → List (String × α)
  | [], k, v => [(k, v)]
  | (k0, v0) :: t, k, v =>
    if k0 = k then (k, v) :: t else (k0, v0) :: alistInsert t k v

/-- One iteration of the loop in `ContainerConfig::env`: split the entry on
`=` and insert `pair[0] -> pair[1]`; when the entry has no `=` the access
`pair[1]` is out of bounds, modeled as `none` (a Rust panic). -/
def envStep (m : List (String × String)) (e : String) :
    Option (List (String × String)) :=
  match splitEq e.data with
  | p0 :: p1 :: _ => some (alistInsert m (String.mk p0) (String.mk p1))
  | _ => none

/-- Embeds `ContainerConfig::env` from `src/image.rs`; `none` models the
panic on an entry without `=`. -/
def ContainerConfig.env (vars : Option (List String)) :
    Option (List (String × String)) :=
  match vars with
  | none => some []
  | some vs => vs.foldlM envStep []

/-- Embeds the enum `ImageFilter` from `src/image.rs`. -/
inductive ImageFilter where
  | Dangling
  | LabelName (n : String)
  | Label (n : String) (v : String)

/-- The key and one-element value list inserted into the filter map for one
`ImageFilter`, following the three `param.insert` arms of
`ImageListOptionsBuilder::filter`. -/
def encFilter : ImageFilter → String × List String
  | .Dangling => ("dangling", ["true"])
  | .LabelName n => ("label", [n])
  | .Label n v => ("label", [n ++ "=" ++ v])

/-- Embeds the `param` map built by `ImageListOptionsBuilder::filter`: each
filter is inserted under its key with `HashMap::insert` overwrite semantics;
this map is then JSON-encoded under the single `filters` query key (the JSON
encoding of a `HashMap` lists keys in unspecified order, so the map itself
is the modeled artifact). -/
def ImageListOptionsBuilder.filter (filters : List ImageFilter) :
    List (String × List String) :=
  filters.foldl (fun m f => alistInsert m (encFilter f).1 (encFilter f).2) []

/-- Whether a filter targets the shared `label` key. -/
def isLabelFilter : ImageFilter → Bool
  | .Dangling => false
  | .LabelName _ => true
  | .Label _ _ => true

/-- The last label-keyed filter of a list, if any. -/
def lastLabel : List ImageFilter → Option ImageFilter
  | [] => none
  | f :: t =>
    match lastLabel t with
    | some g => some g
    | none => if isLabelFilter f then some f else none

/-- Decoding inverts the base64 alphabet on every sextet. -/
theorem b64CharDec_b64Char : ∀ n, n < 64 → b64CharDec (b64Char n) = some n := by
  decide

/-- No alphabet character is the padding character. -/
theorem b64Char_ne_pad : ∀ n, n < 64 → b64Char n ≠ padByte := by decide

/-- Base64 decoding inverts base64 encoding on well-formed byte lists. -/
theorem b64_roundtrip (bs : List Nat) :
    wfBytes bs → b64Decode (b64Encode bs) = some bs := by
  induction bs using b64Encode.induct with
  | case1 => intro _; rfl
  | case2 a =>
    intro h
    have ha : a < 256 := h a (by simp)
    have h1 : b64CharDec (b64Char (a / 4)) = some (a / 4) :=
      b64CharDec_b64Char _ (by omega)
    have h2 : b64CharDec (b64Char (a % 4 * 16)) = some (a % 4 * 16) :=
      b64CharDec_b64Char _ (by omega)
    simp only [b64Encode, b64Decode, h1, h2, if_true]
    rw [show a / 4 * 4 + a % 4 * 16 / 16 = a from by omega]
  | case3 a b =>
    intro h
    have ha : a < 256 := h a (by simp)
    have hb : b < 256 := h b (by simp)
    have h1 : b64CharDec (b64Char (a / 4)) = some (a / 4) :=
      b64CharDec_b64Char _ (by omega)
    have h2 : b64CharDec (b64Char (a % 4 * 16 + b / 16)) =
        some (a % 4 * 16 + b / 16) := b64CharDec_b64Char _ (by omega)
    have h3 : b64CharDec (b64Char (b % 16 * 4)) = some (b % 16 * 4) :=
      b64CharDec_b64Char _ (by omega)
    have hne3 : ¬ b64Char (b % 16 * 4) = padByte :=
      b64Char_ne_pad _ (by omega)
    simp only [b64Encode, b64Decode, h1, h2]
    rw [if_neg hne3]
    simp only [h3, if_true]
    rw [show a / 4 * 4 + (a % 4 * 16 + b / 16) / 16 = a from by omega,
      show (a % 4 * 16 + b / 16) % 16 * 16 + b % 16 * 4 / 4 = b from by omega]
  | case4 a b c rest ih =>
    intro h
    have ha : a < 256 := h a (by simp)
    have hb : b < 256 := h b (by simp)
    have hc : c < 256 := h c (by simp)
    have hrest : wfBytes rest := fun x hx => h x (by simp [hx])
    have h1 : b64CharDec (b64Char (a / 4)) = some (a / 4) :=
      b64CharDec_b64Char _ (by omega)
    have h2 : b64CharDec (b64Char (a % 4 * 16 + b / 16)) =
        some (a % 4 * 16 + b / 16) := b64CharDec_b64Char _ (by omega)
    have h3 : b64CharDec (b64Char (b % 16 * 4 + c / 64)) =
        some (b % 16 * 4 + c / 64) := b64CharDec_b64Char _ (by omega)
    have h4 : b64CharDec (b64Char (c % 64)) = some (c % 64) :=
      b64CharDec_b64Char _ (by omega)
    have hne3 : ¬ b64Char (b % 16 * 4 + c / 64) = padByte :=
      b64Char_ne_pad _ (by omega)
    have hne4 : ¬ b64Char (c % 64) = padByte := b64Char_ne_pad _ (by omega)
    simp only [b64Encode, b64Decode, h1, h2]
    rw [if_neg hne3]
    simp only [h3]
    rw [if_neg hne4]
    simp only [h4, ih hrest, Option.map_some']
    rw [show a / 4 * 4 + (a % 4 * 16 + b / 16) / 16 = a from by omega,
      show (a % 4 * 16 + b / 16) % 16 * 16 + (b % 16 * 4 + c / 64) / 4 = b
        from by omega,
      show (b % 16 * 4 + c / 64) % 4 * 64 + c % 64 = c from by omega]

set_option maxRecDepth 4096 in
/-- Escaping any byte yields bytes. -/
theorem escByte_wf : ∀ b, b < 256 → wfBytes (escByte b) := by decide

/-- The empty byte list is well formed. -/
theorem wfBytes_nil : wfBytes [] := fun _ hx => nomatch hx

/-- Concatenation preserves byte well-formedness. -/
theorem wfBytes_append {l1 l2 : List Nat} (h1 : wfBytes l1)
    (h2 : wfBytes l2) : wfBytes (l1 ++ l2) := fun x hx =>
  (List.mem_append.mp hx).elim (h1 x) (h2 x)

/-- A JSON string literal over well-formed bytes is well formed. -/
theorem quoteBytes_wf (s : List Nat) (hs : wfBytes s) :
    wfBytes (quoteBytes s) := by
  intro x hx
  unfold quoteBytes at hx
  rcases List.mem_cons.mp hx with rfl | hx
  · omega
  rcases List.mem_append.mp hx with hx | hx
  · rcases List.mem_flatten.mp hx with ⟨l, hl, hxl⟩
    rcases List.mem_map.mp hl with ⟨b, hb, rfl⟩
    exact escByte_wf b (hs b hb) x hxl
  · simp at hx
    omega

/-- The serde_json output of a well-formed auth value is well formed. -/
theorem authJson_wf (a : RegistryAuth) (h : wfAuth a) :
    wfBytes (authJson a) := by
  cases a with
  | Token t =>
    exact wfBytes_append (wfBytes_append (by decide) (quoteBytes_wf t h))
      (by decide)
  | Password u p e s =>
    obtain ⟨hu, hp, he, hs⟩ := h
    have base : wfBytes (s2b "\x7b\"username\":" ++ quoteBytes u ++
        s2b ",\"password\":" ++ quoteBytes p) :=
      wfBytes_append
        (wfBytes_append (wfBytes_append (by decide) (quoteBytes_wf u hu))
          (by decide))
        (quoteBytes_wf p hp)
    cases e with
    | none =>
      cases s with
      | none =>
        exact wfBytes_append
          (wfBytes_append (wfBytes_append base wfBytes_nil) wfBytes_nil)
          (by decide)
      | some sa =>
        exact wfBytes_append
          (wfBytes_append (wfBytes_append base wfBytes_nil)
            (wfBytes_append (by decide) (quoteBytes_wf sa (hs sa rfl))))
          (by decide)
    | some em =>
      have hem := he em rfl
      cases s with
      | none =>
        exact wfBytes_append
          (wfBytes_append
            (wfBytes_append base
              (wfBytes_append (by decide) (quoteBytes_wf em hem)))
            wfBytes_nil)
          (by decide)
      | some sa =>
        exact wfBytes_append
          (wfBytes_append
            (wfBytes_append base
              (wfBytes_append (by decide) (quoteBytes_wf em hem)))
            (wfBytes_append (by decide) (quoteBytes_wf sa (hs sa rfl))))
          (by decide)

/-- C1: for every well-formed `RegistryAuth` value, `serialize` is the
base64 encoding of the serde_json object — `{username,password}` with
`email` and `serveraddress` emitted only when present for password
credentials, `{identitytoken}` for token credentials (see `authJson`) — so
the decoded header is exactly that JSON object. -/
theorem registryAuth_serialize_decodes (a : RegistryAuth) (h : wfAuth a) :
    RegistryAuth.serialize a = b64Encode (authJson a) ∧
    b64Decode (RegistryAuth.serialize a) = some (authJson a) :=
  ⟨rfl, b64_roundtrip (authJson a) (authJson_wf a h)⟩

/-- Witness for C1 at the token credential used by the tests of the repository. -/
theorem registryAuth_serialize_decodes_witness :
    b64Decode (RegistryAuth.serialize (.Token (s2b "abc"))) =
      some (authJson (.Token (s2b "abc"))) :=
  (registryAuth_serialize_decodes (.Token (s2b "abc"))
    (by unfold wfAuth wfBytes; decide)).2

/-- C2: decoding the fixed 5-event pull transcript yields exactly 5 values in
transcript order (all pull-status values), and the first-total-per-id fold of
`examples/imagepull_layers.rs` over those values reports exactly the 2
distinct layer ids `abc` and `def` with the totals kept for them. -/
theorem pull_transcript_five_events_two_layers :
    pullTranscript.length = 5 ∧
    pullTranscript.map ImageBuildChunk.decode =
      [ some (.PullStatus "Pulling from library/busybox" none none none),
        some (.PullStatus "Downloading" (some "abc") none
          (some ⟨some 10, some 100⟩)),
        some (.PullStatus "Downloading" (some "abc") none
          (some ⟨some 50, some 200⟩)),
        some (.PullStatus "Downloading" (some "def") none
          (some ⟨some 5, some 50⟩)),
        some (.PullStatus "Status: Downloaded newer image for busybox:latest"
          none none none) ] ∧
    layersOf
      [ .PullStatus "Pulling from library/busybox" none none none,
        .PullStatus "Downloading" (some "abc") none (some ⟨some 10, some 100⟩),
        .PullStatus "Downloading" (some "abc") none (some ⟨some 50, some 200⟩),
        .PullStatus "Downloading" (some "def") none (some ⟨some 5, some 50⟩),
        .PullStatus "Status: Downloaded newer image for busybox:latest"
          none none none ]
      = [("abc", 100), ("def", 50)] ∧
    ("abc" : String) ≠ "def" :=
  ⟨rfl, rfl, rfl, by decide⟩

/-- C4 counterexample: a JSON object carrying an error message but no
`errorDetail` member does not decode at all — `error_detail` is a required
field of the `Error` variant, so the claim as stated is false. -/
theorem error_without_detail_fails_decode :
    ImageBuildChunk.decode (.obj [("error", .str "boom")]) = none := by rfl

/-- C4 amended: an error-shaped progress event consists of a required
`errorDetail` object with an optional error message — an object carrying an
`errorDetail` member but no `error` member decodes to the error shape, while
an object carrying only an error message fails to decode. -/
theorem error_shape_requires_detail :
    (∀ m, ImageBuildChunk.decode
        (.obj [("errorDetail", .obj [("message", .str m)])]) =
      some (.Error none ⟨m⟩)) ∧
    (∀ s, ImageBuildChunk.decode (.obj [("error", .str s)]) = none) :=
  ⟨fun _ => rfl, fun _ => rfl⟩

/-- C5: when `tarball::dir` fails on the build context, `Images::build`
aborts the whole build — the returned stream yields that `IoError` as its
only item and no request body is handed to the transport. -/
theorem build_tar_failure_aborts (opts : BuildOptions)
    (tarDir : String → Bool → Except String (List Nat))
    (daemon : Body → List (Except DockerError ImageBuildChunk)) (e : String)
    (h : tarDir opts.path opts.skip_gzip = .error e) :
    (Images.build opts tarDir daemon).stream = [.error (.IoError e)] ∧
    (Images.build opts tarDir daemon).request = none := by
  simp [Images.build, h, tryFlattenStream]

/-- Witness for C5 at a concrete failing tar builder. -/
theorem build_tar_failure_aborts_witness :
    (Images.build ⟨"ctx", [], false⟩ (fun _ _ => .error "unreadable")
        (fun _ => [])).stream = [.error (.IoError "unreadable")] ∧
    (Images.build ⟨"ctx", [], false⟩ (fun _ _ => .error "unreadable")
        (fun _ => [])).request = none :=
  build_tar_failure_aborts ⟨"ctx", [], false⟩ (fun _ _ => .error "unreadable")
    (fun _ => []) "unreadable" rfl

/-- C6 counterexample: at a concrete successful build and import, the body
handed to the transport is `Body::from` of the complete tar byte vector — a
fully materialized buffer, not an incremental stream — so the claim that the
tar body is produced incrementally and interleaved with socket writes is
false for `Images::build` and `Images::import`. -/
theorem build_import_body_materialized_cx :
    (Images.build ⟨"ctx", [], false⟩ (fun _ _ => .ok [1, 2, 3])
        (fun _ => [])).request = some (.full [1, 2, 3]) ∧
    (Images.importImage [4, 5] (fun _ => [])).request = .full [4, 5] ∧
    Body.full [1, 2, 3] ≠ Body.wrapStream [[1, 2, 3]] :=
  ⟨rfl, rfl, by decide⟩

/-- C6 amended: `Images::build` and `Images::import` fully materialize the
tar archive in memory (a `Vec` filled before the request is issued) and
upload it as a buffered body, so memory grows with the archive size; only
`Images::build_from_raw_parts` wraps the chunk iterator of the caller as an
incremental streaming body. -/
theorem build_import_bodies_fully_buffered :
    (∀ (opts : BuildOptions) (tarDir : String → Bool → Except String (List Nat))
        (daemon : Body → List (Except DockerError ImageBuildChunk))
        (bytes : List Nat), tarDir opts.path opts.skip_gzip = .ok bytes →
      (Images.build opts tarDir daemon).request = some (.full bytes)) ∧
    (∀ (tarball : List Nat)
        (daemon : Body → List (Except DockerError ImageBuildChunk)),
      (Images.importImage tarball daemon).request = .full tarball) ∧
    (∀ (ctx : List (List Nat))
        (daemon : Body → List (Except DockerError ImageBuildChunk)),
      (Images.build_from_raw_parts ctx daemon).request = .wrapStream ctx) := by
  refine ⟨fun opts tarDir daemon bytes h => ?_, fun _ _ => rfl, fun _ _ => rfl⟩
  simp [Images.build, h]

/-- Witness for the amended C6 at a concrete successful tar build. -/
theorem build_import_bodies_fully_buffered_witness :
    (Images.build ⟨"ctx", [], false⟩ (fun _ _ => .ok [9])
        (fun _ => [])).request = some (.full [9]) :=
  build_import_bodies_fully_buffered.1 ⟨"ctx", [], false⟩
    (fun _ _ => .ok [9]) (fun _ => []) [9] rfl

/-- C8: `Images::push` returns `Ok(())` precisely when no `\r\n`-separated
line of the buffered response body contains the substring `errorDetail`;
every `InvalidResponse` error it returns carries one of the lines that do
contain that substring (the body is otherwise discarded undecoded). -/
theorem push_invalid_response_iff (body : String) :
    (Images.push body = .ok () ↔
      ∀ l ∈ splitCrlf body.data,
        listContainsSub l "errorDetail".data = false) ∧
    (∀ line, Images.push body = .error (.InvalidResponse line) →
      ∃ l ∈ splitCrlf body.data,
        listContainsSub l "errorDetail".data = true ∧ line = String.mk l) := by
  rcases hf : (splitCrlf body.data).find?
      (fun l => listContainsSub l "errorDetail".data) with _ | l
  · constructor
    · simp only [Images.push, hf, true_iff]
      intro l hl
      simpa using List.find?_eq_none.mp hf l hl
    · intro line h
      simp only [Images.push, hf] at h
      exact Except.noConfusion h
  · have hmem := List.mem_of_find?_eq_some hf
    have hp := List.find?_some hf
    constructor
    · simp only [Images.push, hf]
      refine ⟨fun h => Except.noConfusion h, fun hall => ?_⟩
      have := hall l hmem
      simp [this] at hp
    · intro line h
      simp only [Images.push, hf, Except.error.injEq,
        DockerError.InvalidResponse.injEq] at h
      exact ⟨l, hmem, by simpa using hp, h.symm⟩

/-- Witness for C8: a body with an `errorDetail` line yields exactly that
line inside the `InvalidResponse` error. -/
theorem push_invalid_response_iff_witness :
    Images.push "ok line\r\nzz errorDetail zz\r\ntail" =
      .error (.InvalidResponse "zz errorDetail zz") ∧
    Images.push "all\r\nfine" = .ok () :=
  ⟨rfl, (push_invalid_response_iff "all\r\nfine").1.mpr (by decide)⟩

/-- Splitting a char list without `=` on `=` returns the single piece. -/
theorem splitEq_of_not_mem (l : List Char) (h : '=' ∉ l) : splitEq l = [l] := by
  induction l with
  | nil => rfl
  | cons c t ih =>
    have hc : ¬ c = '=' := fun hc => h (hc ▸ List.mem_cons_self c t)
    have ht : '=' ∉ t := fun hm => h (List.mem_cons_of_mem c hm)
    simp [splitEq, hc, ih ht]

/-- Splitting peels a leading `=`-free piece before a separator. -/
theorem splitEq_append (k rest : List Char) (h : '=' ∉ k) :
    splitEq (k ++ '=' :: rest) = k :: splitEq rest := by
  induction k with
  | nil => simp [splitEq]
  | cons c t ih =>
    have hc : ¬ c = '=' := fun hc => h (hc ▸ List.mem_cons_self c t)
    have ht : '=' ∉ t := fun hm => h (List.mem_cons_of_mem c hm)
    simp [splitEq, hc, ih ht]

/-- An env entry without `=` makes the whole fold panic. -/
theorem envFold_bad_entry (vars : List String)
    (hbad : ∃ e ∈ vars, '=' ∉ e.data) :
    ∀ m : List (String × String), List.foldlM envStep m vars = none := by
  induction vars with
  | nil => rcases hbad with ⟨e, he, _⟩; cases he
  | cons v t ih =>
    intro m
    rcases hbad with ⟨e, he, hne⟩
    rcases List.mem_cons.mp he with rfl | hrest
    · have : envStep m e = none := by
        simp [envStep, splitEq_of_not_mem e.data hne]
      simp [List.foldlM, this]
    · cases hv : envStep m v with
      | none => simp [List.foldlM, hv]
      | some m2 =>
        have := ih ⟨e, hrest, hne⟩
        simp [List.foldlM, hv, this m2]

/-- C9: `ContainerConfig::env` is not total — any env entry without `=`
drives the `pair[1]` access out of bounds (modeled as `none`, a panic), and
an entry `k=v1=v2` binds `k` to `v1` only, truncating everything after the
second `=`. -/
theorem containerConfig_env_panic_and_truncation :
    (∀ vars : List String, (∃ e ∈ vars, '=' ∉ e.data) →
      ContainerConfig.env (some vars) = none) ∧
    (∀ k v1 v2 : List Char, '=' ∉ k → '=' ∉ v1 → '=' ∉ v2 →
      ContainerConfig.env
          (some [String.mk (k ++ '=' :: (v1 ++ '=' :: v2))]) =
        some [(String.mk k, String.mk v1)]) := by
  constructor
  · intro vars hbad
    simpa [ContainerConfig.env] using envFold_bad_entry vars hbad []
  · intro k v1 v2 hk h1 h2
    have hsplit : splitEq (k ++ '=' :: (v1 ++ '=' :: v2)) = [k, v1, v2] := by
      rw [splitEq_append k _ hk, splitEq_append v1 v2 h1,
        splitEq_of_not_mem v2 h2]
    simp [ContainerConfig.env, List.foldlM, envStep, hsplit, alistInsert]

/-- Witness for C9: the entry `PATH` (no `=`) panics; `K=A=B` binds `K` to
`A` only. -/
theorem containerConfig_env_witness :
    ContainerConfig.env (some ["PATH"]) = none ∧
    ContainerConfig.env
        (some [String.mk (['K'] ++ '=' :: (['A'] ++ '=' :: ['B']))]) =
      some [(String.mk ['K'], String.mk ['A'])] :=
  ⟨containerConfig_env_panic_and_truncation.1 ["PATH"]
      ⟨"PATH", by decide, by decide⟩,
    containerConfig_env_panic_and_truncation.2 ['K'] ['A'] ['B']
      (by decide) (by decide) (by decide)⟩

/-- Lookup after an overwrite-insert: the inserted key maps to the new
value, other keys are untouched. -/
theorem alistLookup_insert {α : Type} (m : List (String × α)) (k key : String)
    (v : α) :
    alistLookup (alistInsert m k v) key =
      if k = key then some v else alistLookup m key := by
  induction m with
  | nil => simp [alistInsert, alistLookup]
  | cons h0 t ih =>
    obtain ⟨k0, v0⟩ := h0
    by_cases hk : k0 = k
    · subst hk
      by_cases h1 : k0 = key <;> simp [alistInsert, alistLookup, h1]
    · by_cases h1 : k0 = key
      · subst h1
        have hne : ¬ k = k0 := fun h => hk h.symm
        simp [alistInsert, alistLookup, hk, hne]
      · simp [alistInsert, alistLookup, hk, h1, ih]

/-- The `label` binding of the filter fold is the encoding of the last
label-keyed filter, when there is one. -/
theorem filterFold_label (fs : List ImageFilter) :
    ∀ m : List (String × List String),
      alistLookup
          (fs.foldl
            (fun m f => alistInsert m (encFilter f).1 (encFilter f).2) m)
          "label" =
        match lastLabel fs with
        | some f => some (encFilter f).2
        | none => alistLookup m "label" := by
  induction fs with
  | nil => intro m; rfl
  | cons f t ih =>
    intro m
    rw [List.foldl_cons, ih]
    cases hl : lastLabel t with
    | some g => simp [lastLabel, hl]
    | none =>
      cases f with
      | Dangling => simp [lastLabel, hl, isLabelFilter, encFilter,
          alistLookup_insert]
      | LabelName n => simp [lastLabel, hl, isLabelFilter, encFilter,
          alistLookup_insert]
      | Label n v => simp [lastLabel, hl, isLabelFilter, encFilter,
          alistLookup_insert]

/-- Every binding of the filter fold is a one-element list when the starting
map only has one-element bindings. -/
theorem filterFold_singleton (fs : List ImageFilter) :
    ∀ m : List (String × List String),
      (∀ k vs, alistLookup m k = some vs → vs.length = 1) →
      ∀ k vs,
        alistLookup
            (fs.foldl
              (fun m f => alistInsert m (encFilter f).1 (encFilter f).2) m)
            k = some vs → vs.length = 1 := by
  induction fs with
  | nil => intro m hm; exact hm
  | cons f t ih =>
    intro m hm
    rw [List.foldl_cons]
    apply ih
    intro k vs hl
    rw [alistLookup_insert] at hl
    by_cases hk : (encFilter f).1 = k
    · rw [if_pos hk, Option.some.injEq] at hl
      subst hl
      cases f <;> simp [encFilter]
    · rw [if_neg hk] at hl
      exact hm k vs hl

/-- C10: in `ImageListOptionsBuilder::filter`, every label filter is
inserted under the single `label` key with overwrite semantics, so the
filter map that gets JSON-encoded as the `filters` parameter binds `label`
to exactly the last label filter of the vector (and every key of the map
maps to a one-element list) instead of accumulating all label filters. -/
theorem filter_last_label_wins (filters : List ImageFilter)
    (f : ImageFilter) (h : lastLabel filters = some f) :
    alistLookup (ImageListOptionsBuilder.filter filters) "label" =
      some (encFilter f).2 ∧
    (∀ k vs, alistLookup (ImageListOptionsBuilder.filter filters) k =
      some vs → vs.length = 1) := by
  constructor
  · unfold ImageListOptionsBuilder.filter
    rw [filterFold_label filters [], h]
  · exact filterFold_singleton filters []
      (by intro k vs h0; simp [alistLookup] at h0)

/-- Witness for C10: of the two label filters `LabelName "a"` and
`Label "b" "c"`, only the last survives under the `label` key. -/
theorem filter_last_label_wins_witness :
    alistLookup
        (ImageListOptionsBuilder.filter [.LabelName "a", .Label "b" "c"])
        "label" = some ["b=c"] :=
  (filter_last_label_wins [.LabelName "a", .Label "b" "c"]
    (.Label "b" "c") rfl).1

/-- A `String` field slot decodes exactly from a JSON string. -/
theorem decodeStrField_eq_some (v : Option Json) (s : String) :
    decodeStrField v = some s ↔ v = some (.str s) := by
  cases v with
  | none => simp [decodeStrField]
  | some j => cases j <;> simp [decodeStrField]

/-- An `Option<String>` slot decodes exactly from the `optStrShape`s. -/
theorem decodeOptStrField_isSome (v : Option Json) :
    (decodeOptStrField v).isSome ↔ optStrShape v := by
  cases v with
  | none => simp [decodeOptStrField, optStrShape]
  | some j => cases j <;> simp [decodeOptStrField, optStrShape]

/-- An `Option<u64>` slot decodes exactly from the `optNatShape`s. -/
theorem decodeOptNatField_isSome (v : Option Json) :
    (decodeOptNatField v).isSome ↔ optNatShape v := by
  cases v with
  | none => simp [decodeOptNatField, optNatShape]
  | some j => cases j <;> simp [decodeOptNatField, optNatShape]

/-- `ErrorDetail` decodes exactly from an object with a string `message`. -/
theorem decodeErrorDetail_isSome (j : Json) :
    (decodeErrorDetail j).isSome ↔
      ∃ od m, j = .obj od ∧ getField od "message" = some (.str m) := by
  cases j with
  | obj o =>
    cases hm : decodeStrField (getField o "message") with
    | none =>
      simp only [decodeErrorDetail, hm, Option.isSome_none,
        Bool.false_eq_true, false_iff]
      rintro ⟨od, m, ho, hmsg⟩
      injection ho with ho
      subst ho
      rw [hmsg] at hm
      simp [decodeStrField] at hm
    | some m =>
      simp only [decodeErrorDetail, hm, Option.isSome_some, true_iff]
      exact ⟨o, m, rfl, (decodeStrField_eq_some _ _).mp hm⟩
  | null => simp [decodeErrorDetail]
  | bool b => simp [decodeErrorDetail]
  | num n => simp [decodeErrorDetail]
  | str s => simp [decodeErrorDetail]
  | arr xs => simp [decodeErrorDetail]

/-- `Aux` decodes exactly from an object with a string `ID`. -/
theorem decodeAux_isSome (j : Json) :
    (decodeAux j).isSome ↔
      ∃ ao i, j = .obj ao ∧ getField ao "ID" = some (.str i) := by
  cases j with
  | obj o =>
    cases hm : decodeStrField (getField o "ID") with
    | none =>
      simp only [decodeAux, hm, Option.isSome_none, Bool.false_eq_true,
        false_iff]
      rintro ⟨ao, i, ho, hid⟩
      injection ho with ho
      subst ho
      rw [hid] at hm
      simp [decodeStrField] at hm
    | some i =>
      simp only [decodeAux, hm, Option.isSome_some, true_iff]
      exact ⟨o, i, rfl, (decodeStrField_eq_some _ _).mp hm⟩
  | null => simp [decodeAux]
  | bool b => simp [decodeAux]
  | num n => simp [decodeAux]
  | str s => simp [decodeAux]
  | arr xs => simp [decodeAux]

/-- `ProgressDetail` decodes exactly from the `detailShape`s. -/
theorem decodeProgressDetail_isSome (j : Json) :
    (decodeProgressDetail j).isSome ↔ detailShape j := by
  cases j with
  | obj o =>
    have hc := decodeOptNatField_isSome (getField o "current")
    have ht := decodeOptNatField_isSome (getField o "total")
    cases h1 : decodeOptNatField (getField o "current") with
    | none =>
      rw [h1] at hc
      simp only [decodeProgressDetail, h1, Option.isSome_none,
        Bool.false_eq_true, false_iff, detailShape]
      rintro ⟨o2, ho, hcur, _⟩
      injection ho with ho
      subst ho
      exact absurd hcur (by simpa using hc.not.mp (by simp))
    | some c =>
      rw [h1] at hc
      cases h2 : decodeOptNatField (getField o "total") with
      | none =>
        rw [h2] at ht
        simp only [decodeProgressDetail, h1, h2, Option.isSome_none,
          Bool.false_eq_true, false_iff, detailShape]
        rintro ⟨o2, ho, _, htot⟩
        injection ho with ho
        subst ho
        exact absurd htot (by simpa using ht.not.mp (by simp))
      | some t =>
        rw [h2] at ht
        simp only [decodeProgressDetail, h1, h2, Option.isSome_some,
          true_iff, detailShape]
        exact ⟨o, rfl, by simpa using hc.mp (by simp),
          by simpa using ht.mp (by simp)⟩
  | null => simp [decodeProgressDetail, detailShape]
  | bool b => simp [decodeProgressDetail, detailShape]
  | num n => simp [decodeProgressDetail, detailShape]
  | str s => simp [decodeProgressDetail, detailShape]
  | arr xs => simp [decodeProgressDetail, detailShape]

/-- An `Option<ProgressDetail>` slot decodes exactly from the
`optDetailShape`s. -/
theorem decodeOptProgressDetail_isSome (v : Option Json) :
    (decodeOptProgressDetail v).isSome ↔ optDetailShape v := by
  cases v with
  | none => simp [decodeOptProgressDetail, optDetailShape]
  | some j =>
    cases j with
    | null => simp [decodeOptProgressDetail, optDetailShape]
    | obj o =>
      have hd := decodeProgressDetail_isSome (.obj o)
      cases h1 : decodeProgressDetail (.obj o) with
      | none =>
        rw [h1] at hd
        simp only [decodeOptProgressDetail, h1, Option.isSome_none,
          Bool.false_eq_true, false_iff, optDetailShape]
        rintro (h | h | ⟨j2, hj, hdet⟩)
        · exact Option.noConfusion h
        · injection h with h; exact Json.noConfusion h
        · injection hj with hj
          subst hj
          exact absurd hdet (by simpa using hd.not.mp (by simp))
      | some d =>
        rw [h1] at hd
        simp only [decodeOptProgressDetail, h1, Option.isSome_some,
          true_iff, optDetailShape]
        exact Or.inr (Or.inr ⟨.obj o, rfl, hd.mp (by simp)⟩)
    | bool b => simp [decodeOptProgressDetail, decodeProgressDetail,
        optDetailShape, detailShape]
    | num n => simp [decodeOptProgressDetail, decodeProgressDetail,
        optDetailShape, detailShape]
    | str s => simp [decodeOptProgressDetail, decodeProgressDetail,
        optDetailShape, detailShape]
    | arr xs => simp [decodeOptProgressDetail, decodeProgressDetail,
        optDetailShape, detailShape]

/-- The `Update` attempt succeeds exactly on the plain-message shape. -/
theorem decodeUpdate_isSome (j : Json) :
    (decodeUpdate j).isSome ↔ matchesUpdate j := by
  cases j with
  | obj o =>
    cases hs : decodeStrField (getField o "stream") with
    | none =>
      simp only [decodeUpdate, hs, Option.isSome_none, Bool.false_eq_true,
        false_iff]
      rintro ⟨o2, s, ho, hstr⟩
      injection ho with ho
      subst ho
      rw [hstr] at hs
      simp [decodeStrField] at hs
    | some s =>
      simp only [decodeUpdate, hs, Option.isSome_some, true_iff]
      exact ⟨o, s, rfl, (decodeStrField_eq_some _ _).mp hs⟩
  | null => simp [decodeUpdate, matchesUpdate]
  | bool b => simp [decodeUpdate, matchesUpdate]
  | num n => simp [decodeUpdate, matchesUpdate]
  | str s => simp [decodeUpdate, matchesUpdate]
  | arr xs => simp [decodeUpdate, matchesUpdate]

/-- The `Error` attempt succeeds exactly on the error shape. -/
theorem decodeError_isSome (j : Json) :
    (decodeError j).isSome ↔ matchesError j := by
  cases j with
  | obj o =>
    have he := decodeOptStrField_isSome (getField o "error")
    cases h1 : decodeOptStrField (getField o "error") with
    | none =>
      rw [h1] at he
      simp only [decodeError, h1, false_iff, matchesError]
      constructor
      · intro h
        cases getField o "errorDetail" <;> simp at h
      · rintro ⟨o2, ho, hshape, _⟩
        injection ho with ho
        subst ho
        exact absurd hshape (by simpa using he.not.mp (by simp))
    | some e =>
      rw [h1] at he
      cases h2 : getField o "errorDetail" with
      | none =>
        simp only [decodeError, h1, h2, Option.isSome_none,
          Bool.false_eq_true, false_iff, matchesError]
        rintro ⟨o2, ho, _, dj, od, m, hdet, _, _⟩
        injection ho with ho
        subst ho
        rw [hdet] at h2
        exact Option.noConfusion h2
      | some dj =>
        have hdd := decodeErrorDetail_isSome dj
        cases h3 : decodeErrorDetail dj with
        | none =>
          rw [h3] at hdd
          simp only [Option.isSome_none, Bool.false_eq_true, false_iff]
            at hdd
          simp only [decodeError, h1, h2, h3, Option.isSome_none,
            Bool.false_eq_true, false_iff, matchesError]
          rintro ⟨o2, ho, _, dj2, od, m, hdet, hobj, hmsg⟩
          injection ho with ho
          subst ho
          rw [hdet] at h2
          injection h2 with h2
          subst h2
          exact hdd ⟨od, m, hobj, hmsg⟩
        | some d =>
          rw [h3] at hdd
          simp only [decodeError, h1, h2, h3, Option.isSome_some, true_iff,
            matchesError]
          rcases hdd.mp (by simp) with ⟨od, m, hobj, hmsg⟩
          exact ⟨o, rfl, he.mp (by simp), dj, od, m, h2, hobj, hmsg⟩
  | null => simp [decodeError, matchesError]
  | bool b => simp [decodeError, matchesError]
  | num n => simp [decodeError, matchesError]
  | str s => simp [decodeError, matchesError]
  | arr xs => simp [decodeError, matchesError]

/-- The `Digest` attempt succeeds exactly on the digest/aux shape. -/
theorem decodeDigest_isSome (j : Json) :
    (decodeDigest j).isSome ↔ matchesDigest j := by
  cases j with
  | obj o =>
    cases h1 : getField o "aux" with
    | none =>
      simp only [decodeDigest, h1, Option.isSome_none, Bool.false_eq_true,
        false_iff, matchesDigest]
      rintro ⟨o2, aj, ao, i, ho, haux, _, _⟩
      injection ho with ho
      subst ho
      rw [haux] at h1
      exact Option.noConfusion h1
    | some aj =>
      have ha := decodeAux_isSome aj
      cases h2 : decodeAux aj with
      | none =>
        rw [h2] at ha
        simp only [Option.isSome_none, Bool.false_eq_true, false_iff] at ha
        simp only [decodeDigest, h1, h2, Option.isSome_none,
          Bool.false_eq_true, false_iff, matchesDigest]
        rintro ⟨o2, aj2, ao, i, ho, haux, hobj, hid⟩
        injection ho with ho
        subst ho
        rw [haux] at h1
        injection h1 with h1
        subst h1
        exact ha ⟨ao, i, hobj, hid⟩
      | some a =>
        rw [h2] at ha
        simp only [decodeDigest, h1, h2, Option.isSome_some, true_iff,
          matchesDigest]
        rcases ha.mp (by simp) with ⟨ao, i, hobj, hid⟩
        exact ⟨o, aj, ao, i, rfl, h1, hobj, hid⟩
  | null => simp [decodeDigest, matchesDigest]
  | bool b => simp [decodeDigest, matchesDigest]
  | num n => simp [decodeDigest, matchesDigest]
  | str s => simp [decodeDigest, matchesDigest]
  | arr xs => simp [decodeDigest, matchesDigest]

/-- The `PullStatus` attempt succeeds exactly on the pull-status shape. -/
theorem decodePullStatus_isSome (j : Json) :
    (decodePullStatus j).isSome ↔ matchesPull j := by
  cases j with
  | obj o =>
    cases hs : decodeStrField (getField o "status") with
    | none =>
      simp only [decodePullStatus, hs, Option.isSome_none,
        Bool.false_eq_true, false_iff, matchesPull]
      rintro ⟨o2, st, ho, hstat, _⟩
      injection ho with ho
      subst ho
      rw [hstat] at hs
      simp [decodeStrField] at hs
    | some st =>
      have hi := decodeOptStrField_isSome (getField o "id")
      have hp := decodeOptStrField_isSome (getField o "progress")
      have hd := decodeOptProgressDetail_isSome (getField o "progressDetail")
      cases h1 : decodeOptStrField (getField o "id") with
      | none =>
        rw [h1] at hi
        simp only [decodePullStatus, hs, h1, Option.isSome_none,
          Bool.false_eq_true, false_iff, matchesPull]
        rintro ⟨o2, st2, ho, _, hid, _, _⟩
        injection ho with ho
        subst ho
        exact absurd hid (by simpa using hi.not.mp (by simp))
      | some i =>
        rw [h1] at hi
        cases h2 : decodeOptStrField (getField o "progress") with
        | none =>
          rw [h2] at hp
          simp only [decodePullStatus, hs, h1, h2, Option.isSome_none,
            Bool.false_eq_true, false_iff, matchesPull]
          rintro ⟨o2, st2, ho, _, _, hprog, _⟩
          injection ho with ho
          subst ho
          exact absurd hprog (by simpa using hp.not.mp (by simp))
        | some p =>
          rw [h2] at hp
          cases h3 : decodeOptProgressDetail (getField o "progressDetail") with
          | none =>
            rw [h3] at hd
            simp only [decodePullStatus, hs, h1, h2, h3, Option.isSome_none,
              Bool.false_eq_true, false_iff, matchesPull]
            rintro ⟨o2, st2, ho, _, _, _, hdet⟩
            injection ho with ho
            subst ho
            exact absurd hdet (by simpa using hd.not.mp (by simp))
          | some pd =>
            rw [h3] at hd
            simp only [decodePullStatus, hs, h1, h2, h3, Option.isSome_some,
              true_iff, matchesPull]
            exact ⟨o, st, rfl, (decodeStrField_eq_some _ _).mp hs,
              hi.mp (by simp), hp.mp (by simp), hd.mp (by simp)⟩
  | null => simp [decodePullStatus, matchesPull]
  | bool b => simp [decodePullStatus, matchesPull]
  | num n => simp [decodePullStatus, matchesPull]
  | str s => simp [decodePullStatus, matchesPull]
  | arr xs => simp [decodePullStatus, matchesPull]

/-- C3: `ImageBuildChunk` decoding recognizes exactly the four shapes —
plain message, error with required detail, digest/aux, pull-status — a JSON
value matching none of them produces no value, and the decode attempts the
shapes in the fixed declaration order Update, Error, Digest, PullStatus,
the first success winning. -/
theorem imageBuildChunk_decode_shapes :
    (∀ j, ImageBuildChunk.decode j = none ↔
      ¬(matchesUpdate j ∨ matchesError j ∨ matchesDigest j ∨
        matchesPull j)) ∧
    (∀ j c, decodeUpdate j = some c → ImageBuildChunk.decode j = some c) ∧
    (∀ j c, decodeUpdate j = none → decodeError j = some c →
      ImageBuildChunk.decode j = some c) ∧
    (∀ j c, decodeUpdate j = none → decodeError j = none →
      decodeDigest j = some c → ImageBuildChunk.decode j = some c) ∧
    (∀ j, decodeUpdate j = none → decodeError j = none →
      decodeDigest j = none →
      ImageBuildChunk.decode j = decodePullStatus j) := by
  refine ⟨fun j => ?_, fun j c h1 => ?_, fun j c h1 h2 => ?_,
    fun j c h1 h2 h3 => ?_, fun j h1 h2 h3 => ?_⟩
  · have hu := decodeUpdate_isSome j
    have he := decodeError_isSome j
    have hd := decodeDigest_isSome j
    have hp := decodePullStatus_isSome j
    cases h1 : decodeUpdate j with
    | some c =>
      rw [h1] at hu
      simp only [ImageBuildChunk.decode, h1, reduceCtorEq, false_iff,
        not_not]
      exact Or.inl (hu.mp (by simp))
    | none =>
      rw [h1] at hu
      cases h2 : decodeError j with
      | some c =>
        rw [h2] at he
        simp only [ImageBuildChunk.decode, h1, h2, reduceCtorEq, false_iff,
          not_not]
        exact Or.inr (Or.inl (he.mp (by simp)))
      | none =>
        rw [h2] at he
        cases h3 : decodeDigest j with
        | some c =>
          rw [h3] at hd
          simp only [ImageBuildChunk.decode, h1, h2, h3, reduceCtorEq,
            false_iff, not_not]
          exact Or.inr (Or.inr (Or.inl (hd.mp (by simp))))
        | none =>
          rw [h3] at hd
          cases h4 : decodePullStatus j with
          | some c =>
            rw [h4] at hp
            simp only [ImageBuildChunk.decode, h1, h2, h3, h4, reduceCtorEq,
              false_iff, not_not]
            exact Or.inr (Or.inr (Or.inr (hp.mp (by simp))))
          | none =>
            rw [h4] at hp
            simp only [ImageBuildChunk.decode, h1, h2, h3, h4, true_iff]
            rintro (h | h | h | h)
            · exact absurd h (by simpa using hu.not.mp (by simp))
            · exact absurd h (by simpa using he.not.mp (by simp))
            · exact absurd h (by simpa using hd.not.mp (by simp))
            · exact absurd h (by simpa using hp.not.mp (by simp))
  · simp [ImageBuildChunk.decode, h1]
  · simp [ImageBuildChunk.decode, h1, h2]
  · simp [ImageBuildChunk.decode, h1, h2, h3]
  · simp [ImageBuildChunk.decode, h1, h2, h3]

/-- Witness for C3: a concrete plain-message object decodes through the
first attempted shape. -/
theorem imageBuildChunk_decode_shapes_witness :
    ImageBuildChunk.decode (.obj [("stream", .str "ok")]) =
      some (.Update "ok") :=
  imageBuildChunk_decode_shapes.2.1 (.obj [("stream", .str "ok")])
    (.Update "ok") rfl

/-- C7: `Images::build` forwards the compression choice of the caller (the
`skip_gzip` flag set through `BuildOptionsBuilder::set_skip_gzip`) together
with the context path to `tarball::dir`, for every path and flag. -/
theorem build_forwards_path_and_skip_gzip (path : String) (flag : Bool)
    (tarDir : String → Bool → Except String (List Nat))
    (daemon : Body → List (Except DockerError ImageBuildChunk)) :
    (Images.build (((BuildOptions.builder path).set_skip_gzip flag).build)
        tarDir daemon).tarArgs = (path, flag) := by
  unfold Images.build
  rcases h : tarDir ((((BuildOptions.builder path).set_skip_gzip
      flag).build).path) ((((BuildOptions.builder path).set_skip_gzip
      flag).build).skip_gzip) with e | bytes <;>
    simp [BuildOptions.builder, BuildOptionsBuilder.new,
      BuildOptionsBuilder.set_skip_gzip, BuildOptionsBuilder.build, h]
